import Mathlib

/-!
Shallow embedding of the iterator-pattern code of this repository
(file `src/unnamed/part_000`).

The source builds an iterator object closing over a mutable cursor `i`
and an array `data`, exposing four methods:

  hasNext()    : i < data.length
  getNext()    : if no next, return null; otherwise return data[i] and do i += 1
  getCurrent() : if no next, return null; otherwise return data[i] (no advance)
  rewind()     : i = 0

The DOM variant `getDOMIterator` first flattens the element's subtree into
`data` with `DOMToArray` (push the node when `nodeType === 1`, then recurse
into `children` left to right; a node whose `nodeType` is not 1 contributes
nothing and its subtree is not visited), then returns the same four methods
over the materialized array.

The embedding makes the closure state explicit as `IterState` (fields named
after the source variables `data` and `i`) and the methods state-passing
functions.  JavaScript's `null` sentinel is rendered as `Option.none`; for
the one claim about sentinel overloading the JavaScript-level versions
`getNextJS`/`getCurrentJS`, in which the sentinel is a value of the element
type itself, are also embedded.
-/

/-- The closure state of the iterator: the materialized array `data` and the
cursor `i`, exactly the two variables the source closes over. -/
structure IterState (T : Type) where
  data : List T
  i : Nat
  deriving DecidableEq, Repr

namespace IterState

/-- `hasNext() { return i < data.length; }` -/
def hasNext {T : Type} (s : IterState T) : Bool :=
  s.i < s.data.length

/-- `getNext()`: returns `null` when `hasNext()` is false; otherwise returns
`data[i]` and increments `i`.  The pair is (returned value, updated closure
state). -/
def getNext {T : Type} (s : IterState T) : Option T × IterState T :=
  if s.hasNext then (s.data[s.i]?, { s with i := s.i + 1 }) else (none, s)

/-- `getCurrent()`: returns `null` when `hasNext()` is false; otherwise
returns `data[i]` without touching the state. -/
def getCurrent {T : Type} (s : IterState T) : Option T :=
  if s.hasNext then s.data[s.i]? else none

/-- `rewind() { i = 0; }` -/
def rewind {T : Type} (s : IterState T) : IterState T :=
  { s with i := 0 }

end IterState

/-- Literal-sequence construction: `let i = 0, data = [...]` — the closure
starts with the supplied array and cursor 0. -/
def mkIterator {T : Type} (xs : List T) : IterState T :=
  ⟨xs, 0⟩

/-- The concrete iterator `myObj` of the source, over `[1, 2, 3, 4, 5]`. -/
def myObj : IterState Nat :=
  mkIterator [1, 2, 3, 4, 5]

/-- A DOM element as the code observes it: a `nodeType` tag and an ordered
list of children.  The code only ever reads these two properties. -/
inductive DOMNode : Type where
  | mk : Int → List DOMNode → DOMNode

/-- `element.nodeType` -/
def DOMNode.nodeType : DOMNode → Int
  | .mk t _ => t

/-- `element.children` -/
def DOMNode.children : DOMNode → List DOMNode
  | .mk _ cs => cs

mutual

/-- `DOMToArray(element)`: if `element.nodeType === 1`, push the element and
recurse into each child in order; otherwise contribute nothing.  The pushes
into the shared `data` array are rendered as list concatenation in visit
order. -/
def DOMToArray : DOMNode → List DOMNode
  | .mk t cs => if t = 1 then .mk t cs :: DOMToArrayList cs else []

/-- The `Array.from(element.children).forEach((child) => DOMToArray(child))`
loop: the children's contributions, concatenated left to right. -/
def DOMToArrayList : List DOMNode → List DOMNode
  | [] => []
  | c :: cs => DOMToArray c ++ DOMToArrayList cs

end

/-- `getDOMIterator(element)`: materialize `data` by `DOMToArray(element)`
with `i = 0`, and return the same four-method iterator over it. -/
def getDOMIterator (element : DOMNode) : IterState DOMNode :=
  ⟨DOMToArray element, 0⟩

/-- The result of `k` successive `getNext()` calls, in call order. -/
def nextResults {T : Type} : IterState T → Nat → List (Option T)
  | _, 0 => []
  | s, k + 1 => (s.getNext).1 :: nextResults (s.getNext).2 k

/-- The four methods of the iterator interface, as an operation alphabet for
reasoning about arbitrary call sequences. -/
inductive Op : Type where
  | hasNextOp : Op
  | peekOp : Op
  | nextOp : Op
  | resetOp : Op
  deriving DecidableEq, Repr

/-- The state transition of one method call: `hasNext` and `getCurrent` do
not touch the closure state, `getNext` advances, `rewind` resets. -/
def step {T : Type} (s : IterState T) : Op → IterState T
  | .hasNextOp => s
  | .peekOp => s
  | .nextOp => (s.getNext).2
  | .resetOp => s.rewind

/-- What one method call returns to the caller. -/
inductive Out (T : Type) : Type where
  | ob : Bool → Out T
  | ov : Option T → Out T
  | ou : Out T
  deriving DecidableEq, Repr

/-- The value returned by one method call in state `s`. -/
def outOf {T : Type} (s : IterState T) : Op → Out T
  | .hasNextOp => .ob s.hasNext
  | .peekOp => .ov s.getCurrent
  | .nextOp => .ov (s.getNext).1
  | .resetOp => .ou

/-- The closure state after a whole sequence of method calls. -/
def runState {T : Type} (s : IterState T) : List Op → IterState T
  | [] => s
  | op :: ops => runState (step s op) ops

/-- The values returned by a whole sequence of method calls, in call order. -/
def runOuts {T : Type} (s : IterState T) : List Op → List (Out T)
  | [] => []
  | op :: ops => outOf s op :: runOuts (step s op) ops

/-- The cursor bound invariant stated by the data model:
`0 <= cursor <= length(items)` (the lower bound is free on `Nat`). -/
def cursorInv {T : Type} (s : IterState T) : Prop :=
  s.i ≤ s.data.length

instance {T : Type} (s : IterState T) : Decidable (cursorInv s) := by
  unfold cursorInv; infer_instance

/-- JavaScript-level `getNext()`: the sentinel `null` (`nullv`) is a value of
the element type itself, as in the source, rather than a distinct `Option`
state. -/
def getNextJS {T : Type} (nullv : T) (s : IterState T) : T × IterState T :=
  if s.hasNext then (s.data.getD s.i nullv, { s with i := s.i + 1 })
  else (nullv, s)

/-- JavaScript-level `getCurrent()`: sentinel `null` as a value of the
element type. -/
def getCurrentJS {T : Type} (nullv : T) (s : IterState T) : T :=
  if s.hasNext then s.data.getD s.i nullv else nullv

example : nextResults myObj 6 = [some 1, some 2, some 3, some 4, some 5, none] := by decide

example : DOMToArray (.mk 1 [.mk 1 [], .mk 1 []]) =
    [.mk 1 [.mk 1 [], .mk 1 []], .mk 1 [], .mk 1 []] := by
  simp [DOMToArray, DOMToArrayList]

/-! ### Helper lemmas -/

theorem getNext_of_hasNext {T : Type} (data : List T) (i : Nat)
    (h : i < data.length) :
    IterState.getNext ⟨data, i⟩ = (data[i]?, ⟨data, i + 1⟩) := by
  simp [IterState.getNext, IterState.hasNext, h]

theorem getNext_of_exhausted {T : Type} (s : IterState T)
    (h : ¬ s.i < s.data.length) : s.getNext = (none, s) := by
  simp [IterState.getNext, IterState.hasNext, h]

theorem nextResults_drain_aux {T : Type} (rest : List T) :
    ∀ pre : List T,
      nextResults ⟨pre ++ rest, pre.length⟩ (rest.length + 1) =
        rest.map some ++ [none] := by
  induction rest with
  | nil =>
      intro pre
      simp [nextResults, getNext_of_exhausted]
  | cons x rest ih =>
      intro pre
      have hlt : pre.length < (pre ++ x :: rest).length := by simp
      have hget : (pre ++ x :: rest)[pre.length]? = some x := by
        rw [List.getElem?_append_right (Nat.le_refl _)]
        simp
      have hstep :
          IterState.getNext (⟨pre ++ x :: rest, pre.length⟩ : IterState T) =
            (some x, ⟨pre ++ x :: rest, pre.length + 1⟩) := by
        rw [getNext_of_hasNext _ _ hlt, hget]
      have hre : (pre ++ x :: rest : List T) = (pre ++ [x]) ++ rest := by simp
      have hlen : pre.length + 1 = (pre ++ [x]).length := by simp
      calc nextResults ⟨pre ++ x :: rest, pre.length⟩ (rest.length + 1 + 1)
          = some x :: nextResults ⟨pre ++ x :: rest, pre.length + 1⟩
              (rest.length + 1) := by
            simp [nextResults, hstep]
        _ = some x :: nextResults ⟨(pre ++ [x]) ++ rest, (pre ++ [x]).length⟩
              (rest.length + 1) := by rw [← hre, ← hlen]
        _ = (x :: rest).map some ++ [none] := by rw [ih (pre ++ [x])]; simp

theorem nextResults_mk {T : Type} (S : List T) :
    nextResults (mkIterator S) (S.length + 1) = S.map some ++ [none] := by
  have h := nextResults_drain_aux S ([] : List T)
  simpa [mkIterator] using h

theorem cursorInv_step {T : Type} (s : IterState T) (op : Op)
    (h : cursorInv s) : cursorInv (step s op) := by
  cases op with
  | hasNextOp => exact h
  | peekOp => exact h
  | nextOp =>
      by_cases hlt : s.i < s.data.length
      · simp [step, IterState.getNext, IterState.hasNext, hlt, cursorInv]
        omega
      · simp [step, getNext_of_exhausted s hlt]
        exact h
  | resetOp =>
      simp [step, IterState.rewind, cursorInv]

theorem cursorInv_runState {T : Type} (ops : List Op) :
    ∀ s : IterState T, cursorInv s → cursorInv (runState s ops) := by
  induction ops with
  | nil => intro s h; exact h
  | cons op ops ih =>
      intro s h
      exact ih (step s op) (cursorInv_step s op h)

theorem step_data_eq {T : Type} (s : IterState T) (op : Op) :
    (step s op).data = s.data := by
  cases op with
  | hasNextOp => rfl
  | peekOp => rfl
  | nextOp =>
      by_cases hlt : s.i < s.data.length
      · simp [step, IterState.getNext, IterState.hasNext, hlt]
      · simp [step, getNext_of_exhausted s hlt]
  | resetOp => rfl

/-! ### Claims -/

/-- C1: for every literal sequence `S` of length `n`, the first `n` calls of
`getNext` return the elements of `S` in order and the `(n+1)`-th call returns
the empty result; for `n = 0`, `hasNext` is false immediately and
`getNext`/`getCurrent` return empty without error. -/
theorem claim_C1_literal_drain :
    (∀ (T : Type) (S : List T),
        nextResults (mkIterator S) (S.length + 1) = S.map some ++ [none]) ∧
    (∀ T : Type,
        IterState.hasNext (mkIterator ([] : List T)) = false ∧
        IterState.getNext (mkIterator ([] : List T)) =
          (none, mkIterator ([] : List T)) ∧
        IterState.getCurrent (mkIterator ([] : List T)) = none) := by
  refine ⟨fun T S => nextResults_mk S, fun T => ⟨?_, ?_, ?_⟩⟩
  · simp [mkIterator, IterState.hasNext]
  · exact getNext_of_exhausted _ (by simp [mkIterator])
  · simp [mkIterator, IterState.getCurrent, IterState.hasNext]

/-- C2: the tree-flattening constructor eagerly materializes `data` as the
pre-order traversal `DOMToArray` with cursor `0`; for a predicate-true root
with two predicate-true leaf children the materialization is
`[root, child1, child2]` and draining yields exactly those in order. -/
theorem claim_C2_tree_flatten (r c1 c2 : DOMNode)
    (h1 : r.nodeType = 1) (h2 : r.children = [c1, c2])
    (h3 : c1.nodeType = 1) (h4 : c1.children = [])
    (h5 : c2.nodeType = 1) (h6 : c2.children = []) :
    (getDOMIterator r).data = DOMToArray r ∧ (getDOMIterator r).i = 0 ∧
    DOMToArray r = [r, c1, c2] ∧
    nextResults (getDOMIterator r) 4 = [some r, some c1, some c2, none] := by
  obtain ⟨tr, csr⟩ := r
  obtain ⟨t1, cs1⟩ := c1
  obtain ⟨t2, cs2⟩ := c2
  simp only [DOMNode.nodeType, DOMNode.children] at h1 h2 h3 h4 h5 h6
  subst h1 h2 h3 h4 h5 h6
  have harr : DOMToArray (.mk 1 [DOMNode.mk 1 [], DOMNode.mk 1 []]) =
      [.mk 1 [DOMNode.mk 1 [], DOMNode.mk 1 []], .mk 1 [], .mk 1 []] := by
    simp [DOMToArray, DOMToArrayList]
  refine ⟨rfl, rfl, harr, ?_⟩
  have h := nextResults_mk
    [DOMNode.mk 1 [DOMNode.mk 1 [], DOMNode.mk 1 []],
     DOMNode.mk 1 [], DOMNode.mk 1 []]
  simp only [getDOMIterator, harr]
  simpa [mkIterator] using h

/-- C2 witness: the concrete three-node tree. -/
theorem claim_C2_tree_flatten_witness :
    DOMNode.nodeType (.mk 1 [DOMNode.mk 1 [], DOMNode.mk 1 []]) = 1 ∧
    nextResults (getDOMIterator (.mk 1 [DOMNode.mk 1 [], DOMNode.mk 1 []])) 4 =
      [some (.mk 1 [DOMNode.mk 1 [], DOMNode.mk 1 []]),
       some (.mk 1 []), some (.mk 1 []), none] :=
  ⟨rfl,
   (claim_C2_tree_flatten (.mk 1 [DOMNode.mk 1 [], DOMNode.mk 1 []])
      (.mk 1 []) (.mk 1 []) rfl rfl rfl rfl rfl rfl).2.2.2⟩

/-- C3: a root failing the `nodeType === 1` predicate yields an empty
materialization: the resulting iterator has `hasNext` false and
`getNext`/`getCurrent` return empty with the state unchanged; every
operation is a total function of the state. -/
theorem claim_C3_non_node_root (e : DOMNode) (h : e.nodeType ≠ 1) :
    DOMToArray e = [] ∧ getDOMIterator e = mkIterator [] ∧
    IterState.hasNext (getDOMIterator e) = false ∧
    IterState.getNext (getDOMIterator e) = (none, getDOMIterator e) ∧
    IterState.getCurrent (getDOMIterator e) = none := by
  obtain ⟨t, cs⟩ := e
  simp only [DOMNode.nodeType] at h
  have harr : DOMToArray (.mk t cs) = [] := by
    simp [DOMToArray, h]
  refine ⟨harr, ?_, ?_, ?_, ?_⟩
  · simp [getDOMIterator, harr, mkIterator]
  · simp [getDOMIterator, harr, IterState.hasNext]
  · exact getNext_of_exhausted _ (by simp [getDOMIterator, harr])
  · simp [getDOMIterator, harr, IterState.getCurrent, IterState.hasNext]

/-- C3 witness: a text-like node (`nodeType = 0`) with no children. -/
theorem claim_C3_non_node_root_witness :
    DOMNode.nodeType (.mk 0 []) ≠ 1 ∧
    (DOMToArray (.mk 0 []) = [] ∧ getDOMIterator (.mk 0 []) = mkIterator [] ∧
     IterState.hasNext (getDOMIterator (.mk 0 [])) = false ∧
     IterState.getNext (getDOMIterator (.mk 0 [])) =
       (none, getDOMIterator (.mk 0 [])) ∧
     IterState.getCurrent (getDOMIterator (.mk 0 [])) = none) :=
  ⟨by decide, claim_C3_non_node_root (.mk 0 []) (by decide)⟩

/-- C4: `0 <= cursor <= length(data)` holds after either construction and
after every sequence of method calls; `hasNext` and `getCurrent` leave the
state untouched, and no operation ever changes `data`. -/
theorem claim_C4_cursor_invariant :
    (∀ (T : Type) (xs : List T) (ops : List Op),
        cursorInv (runState (mkIterator xs) ops)) ∧
    (∀ (e : DOMNode) (ops : List Op),
        cursorInv (runState (getDOMIterator e) ops)) ∧
    (∀ (T : Type) (s : IterState T),
        step s Op.hasNextOp = s ∧ step s Op.peekOp = s) ∧
    (∀ (T : Type) (s : IterState T) (op : Op),
        (step s op).data = s.data) := by
  refine ⟨fun T xs ops => ?_, fun e ops => ?_,
    fun T s => ⟨rfl, rfl⟩, fun T s op => step_data_eq s op⟩
  · exact cursorInv_runState ops _ (by simp [mkIterator, cursorInv])
  · exact cursorInv_runState ops _ (by simp [getDOMIterator, cursorInv])

/-- C5: when `hasNext` is false, `getNext` returns empty and the whole
observable state (cursor and data) is unchanged. -/
theorem claim_C5_exhausted_next {T : Type} (s : IterState T)
    (h : s.hasNext = false) : s.getNext = (none, s) := by
  apply getNext_of_exhausted
  simpa [IterState.hasNext] using h

/-- C5 witness: the exhausted iterator over `[1, 2]`. -/
theorem claim_C5_exhausted_next_witness :
    IterState.hasNext (⟨[1, 2], 2⟩ : IterState Nat) = false ∧
    IterState.getNext (⟨[1, 2], 2⟩ : IterState Nat) =
      (none, (⟨[1, 2], 2⟩ : IterState Nat)) :=
  ⟨by decide, claim_C5_exhausted_next _ (by decide)⟩

/-- C6: `rewind` sets the cursor to `0` (giving exactly the freshly
constructed iterator over the same data), is idempotent, any positive number
of rewinds equals one, and re-draining after a rewind reproduces the drain
of the fresh iterator. -/
theorem claim_C6_rewind :
    (∀ (T : Type) (s : IterState T), s.rewind = mkIterator s.data) ∧
    (∀ (T : Type) (s : IterState T), s.rewind.rewind = s.rewind) ∧
    (∀ (T : Type) (s : IterState T) (m : Nat),
        IterState.rewind^[m + 1] s = s.rewind) ∧
    (∀ (T : Type) (s : IterState T) (k : Nat),
        nextResults s.rewind k = nextResults (mkIterator s.data) k) := by
  have hone : ∀ (T : Type) (s : IterState T), s.rewind = mkIterator s.data :=
    fun T s => rfl
  refine ⟨hone, fun T s => rfl, fun T s m => ?_, fun T s k => by rw [hone]⟩
  induction m with
  | zero => simp
  | succ m ih =>
      rw [Function.iterate_succ_apply', ih]
      rfl

/-- C7: `getCurrent` leaves cursor and data unchanged, and any number of
consecutive `getCurrent` calls all return the same result. -/
theorem claim_C7_peek_pure :
    (∀ (T : Type) (s : IterState T), step s Op.peekOp = s) ∧
    (∀ (T : Type) (s : IterState T) (k : Nat),
        runState s (List.replicate k Op.peekOp) = s) ∧
    (∀ (T : Type) (s : IterState T) (k : Nat),
        runOuts s (List.replicate k Op.peekOp) =
          List.replicate k (Out.ov s.getCurrent)) := by
  have hstate : ∀ (T : Type) (s : IterState T) (k : Nat),
      runState s (List.replicate k Op.peekOp) = s := by
    intro T s k
    induction k with
    | zero => rfl
    | succ k ih => simpa [List.replicate_succ, runState, step] using ih
  refine ⟨fun T s => rfl, hstate, fun T s k => ?_⟩
  induction k with
  | zero => rfl
  | succ k ih =>
      simpa [List.replicate_succ, runOuts, step, outOf] using ih

/-- C8: `hasNext` is true exactly when the cursor is strictly below the data
length, and calling it has no effect on the state. -/
theorem claim_C8_hasNext :
    (∀ (T : Type) (s : IterState T),
        (s.hasNext = true ↔ s.i < s.data.length)) ∧
    (∀ (T : Type) (s : IterState T), step s Op.hasNextOp = s) := by
  refine ⟨fun T s => ?_, fun T s => rfl⟩
  simp [IterState.hasNext]

/-- C9: after construction, every observable result depends only on the
materialized data and the cursor: two tree roots materializing the same
data produce identical result sequences for every sequence of calls. -/
theorem claim_C9_materialization_independent (e1 e2 : DOMNode)
    (ops : List Op)
    (h : (getDOMIterator e1).data = (getDOMIterator e2).data) :
    runOuts (getDOMIterator e1) ops = runOuts (getDOMIterator e2) ops := by
  have hs : getDOMIterator e1 = getDOMIterator e2 := by
    simp only [getDOMIterator] at h ⊢
    simp [h]
  rw [hs]

/-- C9 witness: two different non-element roots, both materializing `[]`. -/
theorem claim_C9_materialization_independent_witness :
    (getDOMIterator (.mk 0 [])).data = (getDOMIterator (.mk 2 [])).data ∧
    runOuts (getDOMIterator (.mk 0 []))
        [Op.nextOp, Op.hasNextOp, Op.peekOp, Op.resetOp] =
      runOuts (getDOMIterator (.mk 2 []))
        [Op.nextOp, Op.hasNextOp, Op.peekOp, Op.resetOp] :=
  ⟨by simp [getDOMIterator, DOMToArray],
   claim_C9_materialization_independent (.mk 0 []) (.mk 2 []) _
     (by simp [getDOMIterator, DOMToArray])⟩

/-- C10: when the sentinel value does not occur in the data, JavaScript-level
`getNext` returns the sentinel exactly when `hasNext` was false at the call,
and likewise for `getCurrent`: the sentinel characterizes exhaustion. -/
theorem claim_C10_sentinel {T : Type} (nullv : T) (s : IterState T)
    (h : nullv ∉ s.data) :
    ((getNextJS nullv s).1 = nullv ↔ s.hasNext = false) ∧
    (getCurrentJS nullv s = nullv ↔ s.hasNext = false) := by
  by_cases hlt : s.i < s.data.length
  · have hb : s.hasNext = true := by simp [IterState.hasNext, hlt]
    have hmem : s.data[s.i] ∈ s.data := List.getElem_mem hlt
    have hne : ¬ s.data[s.i] = nullv := fun he => h (he ▸ hmem)
    constructor
    · simp [getNextJS, IterState.hasNext, hlt, hb, hne]
    · simp [getCurrentJS, IterState.hasNext, hlt, hb, hne]
  · have hb : s.hasNext = false := by simp [IterState.hasNext, hlt]
    constructor
    · simp [getNextJS, IterState.hasNext, hlt, hb]
    · simp [getCurrentJS, IterState.hasNext, hlt, hb]

/-- C10 witness: `myObj` with sentinel `0`, which is not an element. -/
theorem claim_C10_sentinel_witness :
    (0 : Nat) ∉ myObj.data ∧
    (((getNextJS 0 myObj).1 = 0 ↔ myObj.hasNext = false) ∧
     (getCurrentJS 0 myObj = 0 ↔ myObj.hasNext = false)) :=
  ⟨by decide, claim_C10_sentinel 0 myObj (by decide)⟩
